import Mathlib

/-!
Verification of the nlab-listary synchronization-and-indexing pipeline.

The development shallowly embeds the two crates of the repository:

* namespace `App`  — the Tauri application crate
  (`nlab-listary/src-tauri/src`: `storage.rs`, `search.rs`, `lib.rs`);
* namespace `Demo` — the standalone pipeline crate
  (`src`: `storage.rs`, `search.rs`, `parser.rs`, `git_ops.rs`).

Rust `String` values are modelled as their UTF-8 byte sequences
(`List Nat`); the bincode 2 `standard()` configuration is modelled at the
byte level (variable-length unsigned integers, length-prefixed strings,
struct fields in declaration order).  The sled database is modelled as an
association list where the most recent insertion for a key is found first.
-/

/-- UTF-8 byte sequence of an ASCII Lean string literal; used only to
write concrete inputs readably. -/
def bytes (s : String) : List Nat := s.data.map Char.toNat

/-! ### Bincode 2 `standard()` configuration, byte level -/

/-- Little-endian fixed-width encoding of `n` on `k` bytes. -/
def leBytes : Nat → Nat → List Nat
  | 0, _ => []
  | k + 1, n => n % 256 :: leBytes k (n / 256)

/-- Read `k` little-endian bytes from the front of a byte list. -/
def readLE : Nat → List Nat → Option (Nat × List Nat)
  | 0, l => some (0, l)
  | _ + 1, [] => none
  | k + 1, b :: l =>
    match readLE k l with
    | none => none
    | some (m, r) => some (b + 256 * m, r)

/-- Bincode varint encoding of an unsigned 64-bit length
(thresholds 65536 = 2 ^ 16 and 4294967296 = 2 ^ 32). -/
def encodeVarint (n : Nat) : List Nat :=
  if n < 251 then [n]
  else if n < 65536 then 251 :: leBytes 2 n
  else if n < 4294967296 then 252 :: leBytes 4 n
  else 253 :: leBytes 8 n

/-- Bincode varint decoding. -/
def decodeVarint : List Nat → Option (Nat × List Nat)
  | [] => none
  | b :: l =>
    if b < 251 then some (b, l)
    else if b = 251 then readLE 2 l
    else if b = 252 then readLE 4 l
    else if b = 253 then readLE 8 l
    else none

/-- Bincode encoding of a string: varint byte length, then the bytes. -/
def encodeStr (s : List Nat) : List Nat := encodeVarint s.length ++ s

/-- Bincode decoding of a string; fails when fewer bytes remain than the
announced length. -/
def decodeStr (l : List Nat) : Option (List Nat × List Nat) :=
  match decodeVarint l with
  | none => none
  | some (n, r) => if n ≤ r.length then some (r.take n, r.drop n) else none

theorem readLE_leBytes (k : Nat) :
    ∀ (n : Nat) (rest : List Nat), n < 256 ^ k →
      readLE k (leBytes k n ++ rest) = some (n, rest) := by
  induction k with
  | zero =>
    intro n rest h
    interval_cases n
    rfl
  | succ k ih =>
    intro n rest h
    have hdiv : n / 256 < 256 ^ k := by
      have : n < 256 ^ k * 256 := by
        calc n < 256 ^ (k + 1) := h
        _ = 256 ^ k * 256 := by ring
      omega
    simp only [leBytes, List.cons_append, readLE, List.append_eq,
      ih (n / 256) rest hdiv]
    rw [Nat.mod_add_div]

theorem decodeVarint_encodeVarint (n : Nat) (rest : List Nat) (h : n < 2 ^ 64) :
    decodeVarint (encodeVarint n ++ rest) = some (n, rest) := by
  unfold encodeVarint
  by_cases h1 : n < 251
  · simp [decodeVarint, h1]
  · by_cases h2 : n < 65536
    · have hb : n < 256 ^ 2 := by norm_num; omega
      simp [h1, h2, decodeVarint, readLE_leBytes 2 n rest hb]
    · by_cases h3 : n < 4294967296
      · have hb : n < 256 ^ 4 := by norm_num; omega
        simp [h1, h2, h3, decodeVarint, readLE_leBytes 4 n rest hb]
      · have hb : n < 256 ^ 8 := by norm_num; omega
        simp [h1, h2, h3, decodeVarint, readLE_leBytes 8 n rest hb]

theorem decodeStr_encodeStr (s rest : List Nat) (h : s.length < 2 ^ 64) :
    decodeStr (encodeStr s ++ rest) = some (s, rest) := by
  unfold encodeStr decodeStr
  rw [List.append_assoc, decodeVarint_encodeVarint s.length (s ++ rest) h]
  simp

/-! ### The Page record (`models.rs`, struct `NLabPage`)

Field declaration order (`id`, `title`, `file_path`, `url`, `content`)
matches `nlab-listary/src-tauri/src/models.rs`, which carries the
`Encode`/`Decode` derives used by the storage layer. -/

structure NLabPage where
  id : List Nat
  title : List Nat
  file_path : List Nat
  url : List Nat
  content : List Nat
deriving DecidableEq

/-- All field byte lengths fit in a `u64`, as every Rust `String` does. -/
def wfPage (p : NLabPage) : Prop :=
  p.id.length < 2 ^ 64 ∧ p.title.length < 2 ^ 64 ∧
    p.file_path.length < 2 ^ 64 ∧ p.url.length < 2 ^ 64 ∧
    p.content.length < 2 ^ 64

instance (p : NLabPage) : Decidable (wfPage p) := by
  unfold wfPage; infer_instance

/-- `bincode::encode_to_vec(page, standard())`: the five string fields in
declaration order. -/
def encodePage (p : NLabPage) : List Nat :=
  encodeStr p.id ++ encodeStr p.title ++ encodeStr p.file_path ++
    encodeStr p.url ++ encodeStr p.content

/-- `bincode::decode_from_slice(bytes, standard())`: reads the five
fields in declaration order, ignoring any trailing bytes (the Rust call
returns the consumed length and does not require full consumption). -/
def decodePage (l : List Nat) : Option NLabPage :=
  match decodeStr l with
  | none => none
  | some (id, r1) =>
    match decodeStr r1 with
    | none => none
    | some (title, r2) =>
      match decodeStr r2 with
      | none => none
      | some (fp, r3) =>
        match decodeStr r3 with
        | none => none
        | some (url, r4) =>
          match decodeStr r4 with
          | none => none
          | some (content, _) => some ⟨id, title, fp, url, content⟩

theorem decodeStr_encodeStr_nil (s : List Nat) (h : s.length < 2 ^ 64) :
    decodeStr (encodeStr s) = some (s, []) := by
  have := decodeStr_encodeStr s [] h
  simpa using this

theorem decodePage_encodePage (p : NLabPage) (h : wfPage p) :
    decodePage (encodePage p) = some p := by
  obtain ⟨h1, h2, h3, h4, h5⟩ := h
  simp only [encodePage, decodePage, List.append_assoc,
    decodeStr_encodeStr _ _ h1, decodeStr_encodeStr _ _ h2,
    decodeStr_encodeStr _ _ h3, decodeStr_encodeStr _ _ h4,
    decodeStr_encodeStr_nil _ h5]

/-! ### The sled database model

A sled tree is modelled as an association list of (key, value) byte
lists; an insertion prepends, and a lookup returns the most recent value
for the key. -/

abbrev Db : Type := List (List Nat × List Nat)

def dbInsert (db : Db) (k v : List Nat) : Db := (k, v) :: db

def dbGet : Db → List Nat → Option (List Nat)
  | [], _ => none
  | (k2, v) :: rest, k => if k2 = k then some v else dbGet rest k

theorem dbGet_dbInsert_self (db : Db) (k v : List Nat) :
    dbGet (dbInsert db k v) k = some v := by
  simp [dbInsert, dbGet]

/-- Storage error variants relevant to the claims
(`storage.rs`, enum `StorageError`). -/
inductive StorageErr where
  | deserializationError : StorageErr
  | pageSizeExceeded (actual max : Nat) : StorageErr
  | invalidMetadataKey (key : List Nat) : StorageErr
deriving DecidableEq

/-- The reserved metadata key namespace `"meta:"` as bytes. -/
def metaMark : List Nat := bytes "meta:"

namespace App

/-- `Storage::save_page` (src-tauri `storage.rs`): serializes the page
and inserts it under key `page.id`; the size check present in the Demo
crate is commented out here, so every page is accepted. -/
def save_page (db : Db) (p : NLabPage) : Db :=
  dbInsert db p.id (encodePage p)

/-- `Storage::get_page` (src-tauri `storage.rs`): looks the key up and
bincode-decodes the stored bytes; a decode failure is surfaced as
`DeserializationError`. -/
def get_page (db : Db) (page_id : List Nat) :
    Except StorageErr (Option NLabPage) :=
  match dbGet db page_id with
  | none => .ok none
  | some bs =>
    match decodePage bs with
    | none => .error .deserializationError
    | some p => .ok (some p)

/-- `Storage::save_pages_batch` (src-tauri `storage.rs`): one sled batch
inserting every page under its id; no size check (commented out). -/
def save_pages_batch (db : Db) (pages : List NLabPage) : Db :=
  pages.foldl (fun d p => dbInsert d p.id (encodePage p)) db

/-- `Storage::set_metadata` (src-tauri `storage.rs`): rejects keys not
starting with `"meta:"`, otherwise inserts into the same sled tree. -/
def set_metadata (db : Db) (key v : List Nat) : Except StorageErr Db :=
  if metaMark.isPrefixOf key then .ok (dbInsert db key v)
  else .error (.invalidMetadataKey key)

/-- `Storage::get_metadata` (src-tauri `storage.rs`): rejects keys not
starting with `"meta:"`, otherwise returns the raw stored bytes. -/
def get_metadata (db : Db) (key : List Nat) :
    Except StorageErr (Option (List Nat)) :=
  if metaMark.isPrefixOf key then .ok (dbGet db key)
  else .error (.invalidMetadataKey key)

end App

theorem isPrefixOf_append (l rest : List Nat) :
    l.isPrefixOf (l ++ rest) = true := by
  induction l with
  | nil => simp [List.isPrefixOf]
  | cons a as ih => simp [List.isPrefixOf, ih]

/-! ### The Tantivy index model (src-tauri `search.rs`)

A committed index is modelled as the list of its live documents in
insertion order.  `add_document` appends; `delete_term` on the
raw-indexed `id` field removes every previously added document whose
`id` equals the term (tantivy applies operations of one writer session
in order, so a document added after the delete survives it).  Scoring is
abstracted: a query for a single term returns the matching documents
(up to `limit`); every property proved below concerns result sets with
at most one hit, for which ranking order is irrelevant. -/

structure TDoc where
  id : List Nat
  title : List Nat
  content : List Nat
deriving DecidableEq

abbrev TIndex : Type := List TDoc

/-- The document built by `doc!(id, title, content)` from a page. -/
def mkDoc (p : NLabPage) : TDoc := ⟨p.id, p.title, p.content⟩

/-- Default-tokenizer model: split on non-alphanumeric bytes and
lowercase ASCII letters. -/
def lowerByte (b : Nat) : Nat := if 65 ≤ b ∧ b ≤ 90 then b + 32 else b

def isAlnumByte (b : Nat) : Bool :=
  decide ((48 ≤ b ∧ b ≤ 57) ∨ (65 ≤ b ∧ b ≤ 90) ∨ (97 ≤ b ∧ b ≤ 122))

def tokensAux : List Nat → List Nat → List (List Nat)
  | [], cur => if cur = [] then [] else [cur.reverse]
  | b :: rest, cur =>
    if isAlnumByte b then tokensAux rest (lowerByte b :: cur)
    else if cur = [] then tokensAux rest []
    else cur.reverse :: tokensAux rest []

/-- Tokens of a field value. -/
def tokens (s : List Nat) : List (List Nat) := tokensAux s []

/-- Whether a document matches a one-term query over the default fields
(`title` and `content`). -/
def docMatches (term : List Nat) (d : TDoc) : Bool :=
  decide (term ∈ tokens d.title) || decide (term ∈ tokens d.content)

namespace App

/-- `TantivySearch::build_index`: adds every page as a document and
commits once; nothing is deleted. -/
def build_index (idx : TIndex) (docs : List NLabPage) : TIndex :=
  idx ++ docs.map mkDoc

/-- `TantivySearch::update_page`: in one writer session, delete by exact
`id` term, add the new document, commit. -/
def update_page (idx : TIndex) (p : NLabPage) : TIndex :=
  idx.filter (fun d => decide (d.id ≠ p.id)) ++ [mkDoc p]

/-- `TantivySearch::delete_page`: delete by exact `id` term, commit. -/
def delete_page (idx : TIndex) (page_id : List Nat) : TIndex :=
  idx.filter (fun d => decide (d.id ≠ page_id))

/-- `TantivySearch::update_pages_batch`: one writer session performing,
for each page in order, delete-by-id then add; a single commit at the
end. -/
def update_pages_batch (idx : TIndex) (pages : List NLabPage) : TIndex :=
  pages.foldl update_page idx

/-- `TantivySearch::search` for a one-term query: the matching documents,
truncated to `limit` (`TopDocs::with_limit`). -/
def search (idx : TIndex) (term : List Nat) (limit : Nat) : List TDoc :=
  (idx.filter (docMatches term)).take limit

end App

/-! ### The schema of `TantivySearch::new` (claim C4)

`create_schema` exists in both crates; the field options are the tantivy
flag constants: `STRING` = raw-indexed (exact match, untokenized),
`TEXT` = tokenized-indexed, `STORED` = value retrievable. -/

structure TextOpts where
  indexed : Bool
  tokenized : Bool
  stored : Bool
deriving DecidableEq

def optSTRING : TextOpts := ⟨true, false, false⟩
def optTEXT : TextOpts := ⟨true, true, false⟩
def optSTORED : TextOpts := ⟨false, false, true⟩

def orOpts (a b : TextOpts) : TextOpts :=
  ⟨a.indexed || b.indexed, a.tokenized || b.tokenized, a.stored || b.stored⟩

structure SchemaField where
  name : String
  opts : TextOpts
deriving DecidableEq

namespace App

/-- `create_schema` in `nlab-listary/src-tauri/src/search.rs`:
`id` is `STRING | STORED`, `title` and `content` are `TEXT | STORED`. -/
def create_schema : List SchemaField :=
  [⟨"id", orOpts optSTRING optSTORED⟩,
   ⟨"title", orOpts optTEXT optSTORED⟩,
   ⟨"content", orOpts optTEXT optSTORED⟩]

end App

namespace Demo

/-- `TantivySearch::create_schema` in `src/search.rs`:
`id` is `STORED` only (not indexed at all), `title` and `content` are
`TEXT | STORED`. -/
def create_schema : List SchemaField :=
  [⟨"id", optSTORED⟩,
   ⟨"title", orOpts optTEXT optSTORED⟩,
   ⟨"content", orOpts optTEXT optSTORED⟩]

end Demo

instance {ε α : Type} [DecidableEq ε] [DecidableEq α] :
    DecidableEq (Except ε α) := fun x y =>
  match x, y with
  | .ok a, .ok b =>
    if h : a = b then isTrue (by rw [h]) else isFalse (fun hh => h (Except.ok.inj hh))
  | .error a, .error b =>
    if h : a = b then isTrue (by rw [h]) else isFalse (fun hh => h (Except.error.inj hh))
  | .ok _, .error _ => isFalse (fun hh => Except.noConfusion hh)
  | .error _, .ok _ => isFalse (fun hh => Except.noConfusion hh)

/-- ASCII whitespace for the `str::trim` model. -/
def isWsByte (b : Nat) : Bool := decide (b = 32 ∨ b = 9 ∨ b = 10 ∨ b = 13)

/-- Model of Rust `str::trim`: drop whitespace bytes from both ends. -/
def trimBytes (s : List Nat) : List Nat :=
  ((s.dropWhile isWsByte).reverse.dropWhile isWsByte).reverse

namespace Demo

/-! ### `src/storage.rs` — the batch write with the active size limit -/

/-- `NLAB_PAGE_SIZE` in `src/storage.rs`. -/
def NLAB_PAGE_SIZE : Nat := 4 * 1024

/-- The error produced for the first page of the batch whose bincode
encoding exceeds `NLAB_PAGE_SIZE`, if any (`save_pages_batch` serializes
and checks the pages in order and returns on the first failure). -/
def oversizeErr (pages : List NLabPage) : Option StorageErr :=
  pages.findSome? fun p =>
    if NLAB_PAGE_SIZE < (encodePage p).length then
      some (.pageSizeExceeded (encodePage p).length NLAB_PAGE_SIZE)
    else none

/-- `Storage::save_pages_batch` in `src/storage.rs`, as the pair of the
database after the call and the returned result: every page is
serialized and size-checked while building the in-memory `sled::Batch`;
`apply_batch` runs only after all checks pass, so an error leaves the
database untouched. -/
def save_pages_batch (db : Db) (pages : List NLabPage) :
    Db × Except StorageErr Unit :=
  match oversizeErr pages with
  | some e => (db, .error e)
  | none => (pages.foldl (fun d p => dbInsert d p.id (encodePage p)) db, .ok ())

/-! ### `src/parser.rs` — extraction -/

/-- The outcome of visiting one file, as `index_local_files` observes
it: the file's path, whether its extension is `html`, and the result of
`parse_html_file` on it (the per-document extraction: `Ok(Some(page))`,
`Ok(None)`, or a failure reason). -/
structure FileEntry where
  path : String
  isHtml : Bool
  parseResult : Except String (Option NLabPage)
deriving DecidableEq

/-- The loop body of `index_local_files`: accumulates successfully
extracted pages and a `(path, failure-reason)` skip list. -/
def indexLoop : List FileEntry → List NLabPage → List (String × String) →
    List NLabPage × List (String × String)
  | [], pages, skipped => (pages, skipped)
  | f :: rest, pages, skipped =>
    if f.isHtml then
      match f.parseResult with
      | .ok (some p) => indexLoop rest (pages ++ [p]) skipped
      | .ok none => indexLoop rest pages skipped
      | .error e => indexLoop rest pages (skipped ++ [(f.path, e)])
    else indexLoop rest pages skipped

/-- `index_local_files` in `src/parser.rs`: walks the tree, processes
every `.html` file, and returns `Ok(pages)`.  The skip list is printed
to the console and dropped; it is not part of the return value. -/
def index_local_files (files : List FileEntry) :
    Except String (List NLabPage) :=
  .ok (indexLoop files [] []).1

/-- `extract_title` in `src/parser.rs`.  The heading, when present, is
given by the text nodes of the `h1#pageName` element (byte lists, in
tree order — including the text of the `span.webName` site-name child);
the code joins all of them with `" "` and trims, without removing the
site-name token. -/
def extract_title (heading : Option (List (List Nat))) : List Nat :=
  match heading with
  | none => []
  | some nodes => trimBytes (List.intercalate [32] nodes)

end Demo

/-! ### `src/git_ops.rs` — mirror synchronization -/

/-- The local mirror: its commit history (oldest first; the last entry
is the commit `HEAD`/the local branch points at) and an abstract digest
of the checked-out working tree. -/
structure Mirror where
  localHist : List Nat
  worktree : Nat
deriving DecidableEq

/-- `git2::MergeAnalysis` outcome, as classified from the two histories:
up-to-date when the fetched head is already contained in local history,
fast-forward when local history is a strict prefix of remote history,
and "normal" (a real merge would be needed) otherwise. -/
inductive MergeKind where
  | upToDate
  | fastForward
  | normal
deriving DecidableEq

def mergeAnalysis (localHist remoteHist : List Nat) : MergeKind :=
  if remoteHist.isPrefixOf localHist then .upToDate
  else if localHist.isPrefixOf remoteHist then .fastForward
  else .normal

namespace Demo

/-- `update_local_repository` in `src/git_ops.rs`, existing-mirror path:
open, fetch, classify.  Up-to-date: no action.  Fast-forward: advance
the local ref to the fetched commit and force-checkout the remote tree.
Normal merge or anything else: a message is printed and `Ok(repo)` is
returned with the mirror untouched — no error is raised.  Missing path:
clone (ref and tree set to the remote). -/
def update_local_repository (pathExists : Bool) (m : Mirror)
    (remoteHist : List Nat) (remoteTree : Nat) : Except String Mirror :=
  if pathExists then
    match mergeAnalysis m.localHist remoteHist with
    | .upToDate => .ok m
    | .fastForward => .ok ⟨remoteHist, remoteTree⟩
    | .normal => .ok m
  else
    .ok ⟨remoteHist, remoteTree⟩

end Demo

/-! ### `src-tauri/src/lib.rs` — orchestrator and query path -/

/-- `SearchIndex` in src-tauri `models.rs`: a query-facing hit. -/
structure SearchIndexEntry where
  title : List Nat
  url : List Nat
deriving DecidableEq

/-- A hit produced by `TantivySearch::search`, as consumed by
`get_search_results` (score omitted: it is never read there). -/
structure SearchHit where
  id : List Nat
  title : List Nat
  content : List Nat
deriving DecidableEq

namespace App

/-- The hydration step of the `get_search_results` command in
src-tauri `lib.rs`: each hit is resolved against the Durable Store with
`storage.get_page(&res.id).ok().flatten()`; hits whose lookup errors or
finds nothing are dropped silently, the rest become
`SearchIndex { title: res.title, url: page.url }`. -/
def get_search_results (results : List SearchHit) (db : Db) :
    List SearchIndexEntry :=
  results.filterMap fun res =>
    match get_page db res.id with
    | .ok (some page) => some ⟨res.title, page.url⟩
    | .ok none => none
    | .error _ => none

/-- One write of `initialize_components` against a shared store, in
execution order. -/
inductive SyncEvent where
  | storeWrite (pages : List NLabPage)
  | indexWrite (pages : List NLabPage)
deriving DecidableEq

/-- `initialize_components` in src-tauri `lib.rs`, after
`update_local_repository` and `index_local_files` produced `pages`:
on bootstrap (either durable path missing) it writes the store
(`save_pages_batch`) and then builds the index (`build_index`); on the
incremental path (both paths present) it only updates the index
(`update_pages_batch`) — the store is opened but never written.
The result also carries the ordered list of store/index writes. -/
def initialize_components (pathExists storageExists indexExists : Bool)
    (pages : List NLabPage) (db : Db) (idx : TIndex) :
    Except String ((Db × TIndex) × List SyncEvent) :=
  if !pathExists then .error "local repo should exist after update"
  else if !storageExists || !indexExists then
    .ok ((save_pages_batch db pages, build_index idx pages),
      [.storeWrite pages, .indexWrite pages])
  else
    .ok ((db, update_pages_batch idx pages), [.indexWrite pages])

end App

/-! ## Claims -/

/-- Claim C6: for every page `p` saved with `save_page`, a subsequent
`get_page(p.id)` returns `Some(q)` with `q` equal to `p`
field-for-field — the bincode encode/decode pair round-trips every
`NLabPage` (`wfPage` records that each field's byte length fits a
`u64`, which every Rust `String` satisfies). -/
theorem save_page_get_page_roundtrip (db : Db) (p : NLabPage) (h : wfPage p) :
    App.get_page (App.save_page db p) p.id = .ok (some p) := by
  unfold App.save_page App.get_page
  simp [dbGet_dbInsert_self, decodePage_encodePage p h]

def pageC6 : NLabPage :=
  ⟨bytes "pages/1/content.html", bytes "Test Page",
   bytes "pages/1/content.html", bytes "https://ncatlab.org/nlab/show/test",
   bytes "This is test content."⟩

theorem save_page_get_page_roundtrip_witness :
    wfPage pageC6 ∧
      App.get_page (App.save_page [] pageC6) pageC6.id = .ok (some pageC6) :=
  ⟨by decide, save_page_get_page_roundtrip [] pageC6 (by decide)⟩

/-- Claim C9: `save_page` accepts ids with the reserved `"meta:"`
namespace and writes into the single sled keyspace shared with
`set_metadata`; for a page whose id is `"meta:" ++ k`, a later
`get_metadata` of that key returns the page's encoded bytes, hiding any
previously stored metadata value. -/
theorem save_page_clobbers_metadata (db : Db) (v : List Nat) (p : NLabPage)
    (k : List Nat) (h : p.id = metaMark ++ k) :
    App.set_metadata db p.id v = .ok (dbInsert db p.id v) ∧
      App.get_metadata (App.save_page (dbInsert db p.id v) p) p.id =
        .ok (some (encodePage p)) := by
  have hp : metaMark.isPrefixOf p.id = true := by
    rw [h]; exact isPrefixOf_append _ _
  constructor
  · simp [App.set_metadata, hp]
  · simp [App.get_metadata, App.save_page, hp, dbGet_dbInsert_self]

def pageC9 : NLabPage :=
  ⟨bytes "meta:last_sync", bytes "t", bytes "f", bytes "u", bytes "c"⟩

theorem save_page_clobbers_metadata_witness :
    pageC9.id = metaMark ++ bytes "last_sync" ∧
      encodePage pageC9 ≠ bytes "2024-01-01" ∧
      (App.set_metadata [] pageC9.id (bytes "2024-01-01") =
          .ok (dbInsert [] pageC9.id (bytes "2024-01-01")) ∧
        App.get_metadata
            (App.save_page (dbInsert [] pageC9.id (bytes "2024-01-01")) pageC9)
            pageC9.id = .ok (some (encodePage pageC9))) :=
  ⟨by decide, by decide,
    save_page_clobbers_metadata [] (bytes "2024-01-01") pageC9
      (bytes "last_sync") (by decide)⟩

theorem oversizeErr_of_mem (pages : List NLabPage) (p : NLabPage)
    (hmem : p ∈ pages)
    (hsize : Demo.NLAB_PAGE_SIZE < (encodePage p).length) :
    ∃ a, Demo.oversizeErr pages =
        some (.pageSizeExceeded a Demo.NLAB_PAGE_SIZE) ∧
      Demo.NLAB_PAGE_SIZE < a := by
  induction pages with
  | nil => cases hmem
  | cons q rest ih =>
    unfold Demo.oversizeErr at *
    rw [List.findSome?_cons]
    by_cases hq : Demo.NLAB_PAGE_SIZE < (encodePage q).length
    · exact ⟨(encodePage q).length, by simp [hq], hq⟩
    · have hpq : p ∈ rest := by
        cases List.mem_cons.mp hmem with
        | inl he => exact absurd hsize (by rw [he]; exact hq)
        | inr hr => exact hr
      simpa [hq] using ih hpq

/-- Claim C10: in the Demo crate's `Storage`, a batch containing any
page whose bincode encoding exceeds `NLAB_PAGE_SIZE` (4096) bytes makes
`save_pages_batch` return `PageSizeExceeded` and leaves the database
untouched — every page is serialized and size-checked before the single
`apply_batch`, so no page of the batch becomes retrievable. -/
theorem save_pages_batch_oversize_atomic (db : Db) (pages : List NLabPage)
    (p : NLabPage) (hmem : p ∈ pages)
    (hsize : Demo.NLAB_PAGE_SIZE < (encodePage p).length) :
    (∃ a, (Demo.save_pages_batch db pages).2 =
        .error (.pageSizeExceeded a Demo.NLAB_PAGE_SIZE) ∧
      Demo.NLAB_PAGE_SIZE < a) ∧
    (Demo.save_pages_batch db pages).1 = db := by
  obtain ⟨a, he, ha⟩ := oversizeErr_of_mem pages p hmem hsize
  unfold Demo.save_pages_batch
  rw [he]
  exact ⟨⟨a, rfl, ha⟩, rfl⟩

theorem content_le_encodePage (p : NLabPage) :
    p.content.length ≤ (encodePage p).length := by
  simp [encodePage, encodeStr]
  omega

def pageSmallC10 : NLabPage :=
  ⟨bytes "small", bytes "t", bytes "small", bytes "u", bytes "tiny"⟩

def pageBigC10 : NLabPage :=
  ⟨bytes "large.md", bytes "Large Page", bytes "large.md",
   bytes "https://ncatlab.org/nlab/show/large", List.replicate 5000 120⟩

theorem save_pages_batch_oversize_atomic_witness :
    pageBigC10 ∈ [pageSmallC10, pageBigC10] ∧
      Demo.NLAB_PAGE_SIZE < (encodePage pageBigC10).length ∧
      ((∃ a, (Demo.save_pages_batch [] [pageSmallC10, pageBigC10]).2 =
          .error (.pageSizeExceeded a Demo.NLAB_PAGE_SIZE) ∧
        Demo.NLAB_PAGE_SIZE < a) ∧
      (Demo.save_pages_batch [] [pageSmallC10, pageBigC10]).1 = []) := by
  have hmem : pageBigC10 ∈ [pageSmallC10, pageBigC10] := by
    exact List.mem_cons_of_mem _ (List.mem_cons_self _ _)
  have hsize : Demo.NLAB_PAGE_SIZE < (encodePage pageBigC10).length := by
    have h1 : pageBigC10.content.length = 5000 := by
      show (List.replicate 5000 120).length = 5000
      exact List.length_replicate _ _
    have := content_le_encodePage pageBigC10
    unfold Demo.NLAB_PAGE_SIZE
    omega
  exact ⟨hmem, hsize,
    save_pages_batch_oversize_atomic [] [pageSmallC10, pageBigC10]
      pageBigC10 hmem hsize⟩

/-- Claim C8: `get_search_results` returns only hits whose id resolves
to a stored page; a hit with no backing record or whose storage lookup
errors is silently omitted (never surfaced as an error), so the result
may be shorter than the underlying search's hit list. -/
theorem get_search_results_only_backed (results : List SearchHit) (db : Db)
    (r : SearchHit) (rest : List SearchHit)
    (hr : ∀ p : NLabPage, App.get_page db r.id ≠ .ok (some p)) :
    (App.get_search_results results db).length ≤ results.length ∧
    App.get_search_results (r :: rest) db = App.get_search_results rest db ∧
    (∀ e ∈ App.get_search_results results db, ∃ s ∈ results,
      ∃ page : NLabPage, App.get_page db s.id = .ok (some page) ∧
        e = ⟨s.title, page.url⟩) := by
  refine ⟨List.length_filterMap_le _ _, ?_, ?_⟩
  · unfold App.get_search_results
    rw [List.filterMap_cons]
    cases hgp : App.get_page db r.id with
    | ok o =>
      cases o with
      | none => simp [hgp]
      | some page => exact absurd hgp (hr page)
    | error e => simp [hgp]
  · intro e he
    obtain ⟨s, hs, hf⟩ := List.mem_filterMap.mp he
    cases hgp : App.get_page db s.id with
    | ok o =>
      cases o with
      | none => rw [hgp] at hf; cases hf
      | some page =>
        rw [hgp] at hf
        exact ⟨s, hs, page, hgp, (Option.some.inj hf).symm⟩
    | error er => rw [hgp] at hf; cases hf

def pageC8 : NLabPage :=
  ⟨bytes "pages/9/content.html", bytes "Backed Page",
   bytes "pages/9/content.html", bytes "https://ncatlab.org/nlab/show/backed",
   bytes "backed content"⟩

def hitGoodC8 : SearchHit := ⟨bytes "pages/9/content.html", bytes "Backed Page", bytes "backed content"⟩

def hitBadC8 : SearchHit := ⟨bytes "pages/ghost.html", bytes "Ghost", bytes "ghost content"⟩

def dbC8 : Db := dbInsert [] (bytes "pages/9/content.html") (encodePage pageC8)

theorem get_search_results_only_backed_witness :
    (App.get_search_results [hitGoodC8, hitBadC8] dbC8).length ≤
      [hitGoodC8, hitBadC8].length ∧
    App.get_search_results (hitBadC8 :: [hitGoodC8]) dbC8 =
      App.get_search_results [hitGoodC8] dbC8 ∧
    (∀ e ∈ App.get_search_results [hitGoodC8, hitBadC8] dbC8,
      ∃ s ∈ [hitGoodC8, hitBadC8], ∃ page : NLabPage,
        App.get_page dbC8 s.id = .ok (some page) ∧
          e = ⟨s.title, page.url⟩) :=
  get_search_results_only_backed [hitGoodC8, hitBadC8] dbC8 hitBadC8
    [hitGoodC8]
    (by
      intro p hp
      rw [show App.get_page dbC8 hitBadC8.id = .ok none from by decide] at hp
      cases hp)

/-- Claim C4 counterexample: in the Demo crate's schema the `id` field
carries only `STORED` — it is not indexed at all, so it is not
exact-match indexed; the claim that both `TantivySearch`
implementations index `id` raw+stored is false. -/
theorem schema_id_indexed_both_false :
    ¬ ∀ s ∈ [App.create_schema, Demo.create_schema],
      ∃ f ∈ s, f.name = "id" ∧ f.opts.indexed = true ∧
        f.opts.tokenized = false ∧ f.opts.stored = true := by
  decide

/-- Claim C4 (amended): both schemas have exactly the three fields
`id`, `title`, `content`, with `title` and `content` tokenized+stored
in both; `id` is exact-match raw-indexed and stored in the src-tauri
implementation, but only stored (not indexed) in the Demo (`src/`)
implementation, where delete-by-exact-term therefore has nothing to
match on. -/
theorem schema_fields_exact :
    App.create_schema.map (fun f => f.name) = ["id", "title", "content"] ∧
    Demo.create_schema.map (fun f => f.name) = ["id", "title", "content"] ∧
    (App.create_schema.find? (fun f => f.name == "id")).map (fun f => f.opts) =
      some ⟨true, false, true⟩ ∧
    (Demo.create_schema.find? (fun f => f.name == "id")).map (fun f => f.opts) =
      some ⟨false, false, true⟩ ∧
    (App.create_schema.find? (fun f => f.name == "title")).map (fun f => f.opts) =
      some ⟨true, true, true⟩ ∧
    (App.create_schema.find? (fun f => f.name == "content")).map (fun f => f.opts) =
      some ⟨true, true, true⟩ ∧
    (Demo.create_schema.find? (fun f => f.name == "title")).map (fun f => f.opts) =
      some ⟨true, true, true⟩ ∧
    (Demo.create_schema.find? (fun f => f.name == "content")).map (fun f => f.opts) =
      some ⟨true, true, true⟩ := by
  decide

/-- The pages `index_local_files` succeeds on, in visit order. -/
def extractedPages (files : List Demo.FileEntry) : List NLabPage :=
  files.filterMap fun f =>
    match f.isHtml, f.parseResult with
    | true, .ok (some p) => some p
    | _, _ => none

/-- The `(path, failure-reason)` pairs of skipped documents, in visit
order. -/
def skippedDocs (files : List Demo.FileEntry) : List (String × String) :=
  files.filterMap fun f =>
    match f.isHtml, f.parseResult with
    | true, .error e => some (f.path, e)
    | _, _ => none

theorem indexLoop_spec (files : List Demo.FileEntry) :
    ∀ (acc : List NLabPage) (skip : List (String × String)),
      Demo.indexLoop files acc skip =
        (acc ++ extractedPages files, skip ++ skippedDocs files) := by
  induction files with
  | nil => intro acc skip; simp [Demo.indexLoop, extractedPages, skippedDocs]
  | cons f rest ih =>
    intro acc skip
    unfold Demo.indexLoop extractedPages skippedDocs
    cases hh : f.isHtml with
    | false =>
      simpa [hh, List.filterMap_cons, extractedPages, skippedDocs] using
        ih acc skip
    | true =>
      cases hp : f.parseResult with
      | ok o =>
        cases o with
        | none =>
          simpa [hh, hp, List.filterMap_cons, extractedPages, skippedDocs]
            using ih acc skip
        | some page =>
          simpa [hh, hp, List.filterMap_cons, extractedPages, skippedDocs]
            using ih (acc ++ [page]) skip
      | error e =>
        simpa [hh, hp, List.filterMap_cons, extractedPages, skippedDocs]
          using ih acc (skip ++ [(f.path, e)])

def pageC5 : NLabPage :=
  ⟨bytes "pages/1/content.html", bytes "First Page",
   bytes "pages/1/content.html", bytes "https://ncatlab.org/nlab/show/first",
   bytes "first page content"⟩

def fileGoodC5 : Demo.FileEntry :=
  ⟨"pages/1/content.html", true, .ok (some pageC5)⟩

def fileBadC5 : Demo.FileEntry :=
  ⟨"pages/2/content.html", true, .error "No edit link found in HTML"⟩

/-- Claim C5 counterexample: `index_local_files` does not return the
skip list.  With one failing document the call still returns
`Ok([pageC5])` — the very same value as without the failing document —
even though the loop accumulated a non-empty skip list internally; the
returned value therefore carries no `(path, failure-reason)` side
list. -/
theorem index_local_files_drops_skiplist :
    Demo.index_local_files [fileGoodC5, fileBadC5] = .ok [pageC5] ∧
    Demo.index_local_files [fileGoodC5] = .ok [pageC5] ∧
    (Demo.indexLoop [fileGoodC5, fileBadC5] [] []).2 =
      [("pages/2/content.html", "No edit link found in HTML")] := by
  decide

/-- Claim C5 (amended): `index_local_files` visits every `.html` file,
extracts each independently, and returns `Ok` with the accumulated
successfully-extracted pages; the `(path, failure-reason)` pairs of
skipped documents are accumulated in an internal list that is printed,
not returned, and a per-document failure never makes the batch return
an error or stop early. -/
theorem index_local_files_never_aborts (files : List Demo.FileEntry) :
    Demo.index_local_files files = .ok (extractedPages files) ∧
    (Demo.indexLoop files [] []).2 = skippedDocs files := by
  constructor
  · unfold Demo.index_local_files
    rw [indexLoop_spec files [] []]
    simp
  · rw [indexLoop_spec files [] []]
    simp

def headingC7 : List (List Nat) := [bytes "nLab", bytes "category theory"]

/-- Claim C7 (code bug evaluated at the failing input): `extract_title`
joins all text nodes of `h1#pageName` — including the `span.webName`
site-name token — with spaces and trims, but never strips the site-name
prefix, contradicting its own comment ("extract the text after
`<span class=webName>`"), the prototype in `src/main.rs` (which does
`.replace("nLab", "")`), and the spec.  For a heading whose text nodes
are `["nLab", "category theory"]` it returns "nLab category theory"
instead of "category theory"; with no heading it returns the empty
string as claimed. -/
theorem extract_title_keeps_site_name :
    Demo.extract_title (some headingC7) = bytes "nLab category theory" ∧
    Demo.extract_title (some headingC7) ≠ bytes "category theory" ∧
    Demo.extract_title none = [] := by
  decide

def mirrorC3 : Mirror := ⟨[1, 2], 7⟩

/-- Claim C3 counterexample: with local history `[1, 2]` and fetched
remote history `[1, 3]` (neither a prefix of the other — a diverged
mirror), `update_local_repository` returns `Ok` with the mirror
unchanged: it prints a message about the unsupported merge but raises
no error, so the sync attempt does not fail. -/
theorem diverged_mirror_returns_ok :
    Demo.update_local_repository true mirrorC3 [1, 3] 9 = .ok mirrorC3 := by
  decide

/-- Claim C3 (amended): for every existing local mirror whose history is
not a prefix of the fetched remote history (neither up-to-date nor
fast-forwardable), `update_local_repository` leaves the mirror's
working tree and references unchanged and returns `Ok` — the
unsupported-merge condition is reported only by a printed message, not
as an error. -/
theorem diverged_mirror_untouched (m : Mirror) (remoteHist : List Nat)
    (remoteTree : Nat)
    (h1 : remoteHist.isPrefixOf m.localHist = false)
    (h2 : m.localHist.isPrefixOf remoteHist = false) :
    Demo.update_local_repository true m remoteHist remoteTree = .ok m := by
  unfold Demo.update_local_repository mergeAnalysis
  simp [h1, h2]

theorem diverged_mirror_untouched_witness :
    ([5, 7] : List Nat).isPrefixOf [5, 6] = false ∧
    ([5, 6] : List Nat).isPrefixOf [5, 7] = false ∧
    Demo.update_local_repository true ⟨[5, 6], 1⟩ [5, 7] 2 = .ok ⟨[5, 6], 1⟩ :=
  ⟨by decide, by decide,
    diverged_mirror_untouched ⟨[5, 6], 1⟩ [5, 7] 2 (by decide) (by decide)⟩

def pageC2 : NLabPage :=
  ⟨bytes "pages/7/content.html", bytes "New Page",
   bytes "pages/7/content.html", bytes "https://ncatlab.org/nlab/show/new",
   bytes "freshterm appears here"⟩

/-- Claim C2 (code bug evaluated at the failing input): on the
incremental path of `initialize_components` (repository present, both
durable paths present) the page set is never written to the Durable
Store — the only write event of the pass is the Search Index update.
With an empty store and a new page, the pass succeeds, a search for the
page's unique term returns a hit with its id, yet `get_page` on that id
returns `None`: a hit with no backing record, contradicting the claimed
store-before-index ordering and its consequence. -/
theorem incremental_pass_skips_store :
    App.initialize_components true true true [pageC2] [] [] =
      .ok (([], [mkDoc pageC2]), [.indexWrite [pageC2]]) ∧
    App.search [mkDoc pageC2] (bytes "freshterm") 10 = [mkDoc pageC2] ∧
    App.get_page [] pageC2.id = .ok none := by
  decide

theorem take_singleton (x : TDoc) (n : Nat) (h : 1 ≤ n) :
    ([x] : List TDoc).take n = [x] := by
  match n with
  | 0 => omega
  | m + 1 => simp

theorem mkDoc_docMatches (p : NLabPage) (term : List Nat)
    (h : term ∈ tokens p.content) : docMatches term (mkDoc p) = true := by
  simp [docMatches, mkDoc, h]

theorem filter_all_false {α : Type} (p : α → Bool) (l : List α)
    (h : ∀ a ∈ l, p a = false) : l.filter p = [] := by
  induction l with
  | nil => rfl
  | cons a t ih =>
    rw [List.filter_cons, h a (List.mem_cons_self a t)]
    exact ih fun b hb => h b (List.mem_cons_of_mem a hb)

theorem filter_swap {α : Type} (p q : α → Bool) (l : List α) :
    (l.filter p).filter q = (l.filter q).filter p := by
  induction l with
  | nil => rfl
  | cons a t ih =>
    by_cases hp : p a <;> by_cases hq : q a <;>
      simp [List.filter_cons, hp, hq, ih]

theorem update_page_filter_matches (idx : TIndex) (p : NLabPage)
    (term : List Nat) (hterm : term ∈ tokens p.content)
    (hidx : ∀ d ∈ idx, d.id ≠ p.id → docMatches term d = false) :
    (App.update_page idx p).filter (docMatches term) = [mkDoc p] := by
  unfold App.update_page
  rw [List.filter_append]
  have h1 : (idx.filter fun d => decide (d.id ≠ p.id)).filter
      (docMatches term) = [] := by
    apply filter_all_false
    intro d hd
    have hmem := List.mem_filter.mp hd
    exact hidx d hmem.1 (by simpa using hmem.2)
  rw [h1]
  simp [List.filter_cons, mkDoc_docMatches p term hterm]

theorem mem_update_pages_batch (l : List NLabPage) :
    ∀ (idx : TIndex) (d : TDoc), d ∈ App.update_pages_batch idx l →
      d ∈ idx ∨ ∃ q ∈ l, d = mkDoc q := by
  induction l with
  | nil => intro idx d hd; exact Or.inl hd
  | cons q rest ih =>
    intro idx d hd
    have hstep : App.update_pages_batch idx (q :: rest) =
        App.update_pages_batch (App.update_page idx q) rest := rfl
    rw [hstep] at hd
    cases ih (App.update_page idx q) d hd with
    | inl hin =>
      unfold App.update_page at hin
      cases List.mem_append.mp hin with
      | inl hf => exact Or.inl (List.mem_filter.mp hf).1
      | inr hone =>
        have : d = mkDoc q := by simpa using hone
        exact Or.inr ⟨q, List.mem_cons_self q rest, this⟩
    | inr hrest =>
      obtain ⟨r, hr, hdr⟩ := hrest
      exact Or.inr ⟨r, List.mem_cons_of_mem q hr, hdr⟩

theorem update_pages_batch_post_filter (post : List NLabPage)
    (p : NLabPage) (term : List Nat) :
    ∀ (J : TIndex), (∀ q ∈ post, q.id ≠ p.id) →
      (∀ q ∈ post, docMatches term (mkDoc q) = false) →
      J.filter (docMatches term) = [mkDoc p] →
      (App.update_pages_batch J post).filter (docMatches term) = [mkDoc p] := by
  induction post with
  | nil => intro J _ _ hJ; exact hJ
  | cons q rest ih =>
    intro J hids hm hJ
    have hstep : App.update_pages_batch J (q :: rest) =
        App.update_pages_batch (App.update_page J q) rest := rfl
    rw [hstep]
    have hq : q.id ≠ p.id := hids q (List.mem_cons_self q rest)
    have hqm : docMatches term (mkDoc q) = false :=
      hm q (List.mem_cons_self q rest)
    have hJ' : (App.update_page J q).filter (docMatches term) = [mkDoc p] := by
      unfold App.update_page
      rw [List.filter_append,
        filter_swap (fun d => decide (d.id ≠ q.id)) (docMatches term) J, hJ]
      have hpq : ((mkDoc p).id ≠ q.id) := by
        simpa [mkDoc] using fun he => hq he.symm
      simp [List.filter_cons, hpq, hqm]
    exact ih (App.update_page J q)
      (fun r hr => hids r (List.mem_cons_of_mem q hr))
      (fun r hr => hm r (List.mem_cons_of_mem q hr)) hJ'

/-- Claim C1 (amended): for every page `p`, index state, and batch in
which no entry after `p` bears `p`'s id, after `update_page(p)` (or
`update_pages_batch` of such a batch containing `p`) a search with
`limit ≥ 1` for a term unique to `p`'s new content returns exactly the
one document with id `p.id`, carrying `p`'s new title and content —
never a pre-update version, never two copies — because each upsert
deletes by exact `id` term before adding the new document.
("Unique to `p`'s new content": the term occurs among the content
tokens of `p` and matches no other-id document of the prior index nor
any other-id batch entry.) -/
theorem upsert_search_unique_hit (idx : TIndex) (pre post : List NLabPage)
    (p : NLabPage) (term : List Nat) (limit : Nat)
    (hterm : term ∈ tokens p.content)
    (hpost : ∀ q ∈ post, q.id ≠ p.id)
    (hidx : ∀ d ∈ idx, d.id ≠ p.id → docMatches term d = false)
    (hbatch : ∀ q ∈ pre ++ post, q.id ≠ p.id →
      docMatches term (mkDoc q) = false)
    (hlimit : 1 ≤ limit) :
    App.search (App.update_page idx p) term limit = [mkDoc p] ∧
    App.search (App.update_pages_batch idx (pre ++ p :: post)) term limit =
      [mkDoc p] := by
  constructor
  · unfold App.search
    rw [update_page_filter_matches idx p term hterm hidx]
    exact take_singleton _ _ hlimit
  · unfold App.search
    have hsplit : App.update_pages_batch idx (pre ++ p :: post) =
        App.update_pages_batch
          (App.update_page (App.update_pages_batch idx pre) p) post := by
      unfold App.update_pages_batch
      rw [List.foldl_append]
      rfl
    rw [hsplit]
    have hK : ∀ d ∈ App.update_pages_batch idx pre, d.id ≠ p.id →
        docMatches term d = false := by
      intro d hd hne
      cases mem_update_pages_batch pre idx d hd with
      | inl hin => exact hidx d hin hne
      | inr hq =>
        obtain ⟨q, hq1, hq2⟩ := hq
        subst hq2
        exact hbatch q (List.mem_append.mpr (Or.inl hq1)) (by simpa [mkDoc] using hne)
    have hJ : (App.update_page (App.update_pages_batch idx pre) p).filter
        (docMatches term) = [mkDoc p] :=
      update_page_filter_matches _ p term hterm hK
    rw [update_pages_batch_post_filter post p term _ hpost
      (fun q hq => hbatch q (List.mem_append.mpr (Or.inr hq)) (hpost q hq)) hJ]
    exact take_singleton _ _ hlimit

def docOtherC1 : TDoc := ⟨bytes "pages/b.html", bytes "Other", bytes "other words"⟩

def pageC1 : NLabPage :=
  ⟨bytes "pages/a.html", bytes "Updated First Page", bytes "pages/a.html",
   bytes "https://ncatlab.org/nlab/show/a", bytes "uniqterm here"⟩

theorem upsert_search_unique_hit_witness :
    App.search (App.update_page [docOtherC1] pageC1) (bytes "uniqterm") 10 =
      [mkDoc pageC1] ∧
    App.search (App.update_pages_batch [docOtherC1] ([] ++ pageC1 :: []))
      (bytes "uniqterm") 10 = [mkDoc pageC1] :=
  upsert_search_unique_hit [docOtherC1] [] [] pageC1 (bytes "uniqterm") 10
    (by decide) (by simp) (by decide) (by simp) (by decide)

def pageOldC1 : NLabPage :=
  ⟨bytes "pages/a.html", bytes "T1", bytes "pages/a.html",
   bytes "https://ncatlab.org/nlab/show/a", bytes "foo"⟩

def pageNewC1 : NLabPage :=
  ⟨bytes "pages/a.html", bytes "T2", bytes "pages/a.html",
   bytes "https://ncatlab.org/nlab/show/a", bytes "bar"⟩

/-- Claim C1 counterexample: an `update_pages_batch` containing `p` in
which a later entry bears the same id.  The term "foo" occurs in
`pageOldC1`'s new content and in no other document of the final index
(which holds only `pageNewC1`'s document), yet after the batch returns
Ok a search for it yields zero hits, not exactly one hit with
`id = pageOldC1.id`: the later entry's delete-by-id removed the
document added for `pageOldC1` inside the same writer session. -/
theorem upsert_batch_same_id_counterexample :
    bytes "foo" ∈ tokens pageOldC1.content ∧
    docMatches (bytes "foo") (mkDoc pageNewC1) = false ∧
    App.update_pages_batch [] [pageOldC1, pageNewC1] = [mkDoc pageNewC1] ∧
    App.search (App.update_pages_batch [] [pageOldC1, pageNewC1])
      (bytes "foo") 10 = [] := by
  decide
